import Mathlib

/-!
Verification of the coyote build orchestrator (src/main.rs) against its
natural-language specification.  The Rust source is shallowly embedded:
strings are lists of characters, `HashMap`s become functions into `Option`,
process exits and panics become explicit result constructors, and the
external process-spawning primitives are abstracted as function parameters.
-/

namespace Coyote

/-- The character `{` (written via its code point to keep source literals plain). -/
def lbrace : Char := Char.ofNat 123

/-- The character `}`. -/
def rbrace : Char := Char.ofNat 125

/-- The backtick character. -/
def btick : Char := Char.ofNat 96

/-- The resolved variable table (Rust `HashMap<String, String>`), modelled as a
finite-map-like function from names to values; strings are lists of chars. -/
abbrev VarTable := List Char → Option (List Char)

/-- Scanner state of `patch_variable_references`: the local vars
`tokens`, `var_data` and `var_found` of the Rust loop. -/
structure VScan where
  tokens : List Char
  var_data : List Char
  var_found : Bool
deriving DecidableEq

/-- One character step of the `for c in value.chars()` loop of
`patch_variable_references` (src/main.rs lines 145-169).  `Except.error`
models the Rust `return Err(var_ref)`.  `tokens.replace("\x7b", "")` is
modelled as filtering the character out. -/
def pvrStep (vars : VarTable) (st : VScan) (c : Char) : Except (List Char) VScan :=
  if st.var_found then
    if c = rbrace then
      let var_ref := st.tokens.filter (fun x => x != lbrace)
      match vars var_ref with
      | some value => .ok { st with var_data := st.var_data ++ value, var_found := false }
      | none => .error var_ref
    else if c = lbrace then
      .ok { st with var_found := false, var_data := st.var_data ++ [lbrace] }
    else
      .ok { st with tokens := st.tokens ++ [c] }
  else if c = lbrace then
    .ok { st with var_found := true, tokens := [lbrace] }
  else
    .ok { st with var_data := st.var_data ++ [c] }

/-- The character loop of `patch_variable_references`, folded over the input. -/
def pvrScan (vars : VarTable) : List Char → VScan → Except (List Char) VScan
  | [], st => .ok st
  | c :: cs, st =>
    match pvrStep vars st c with
    | .ok st' => pvrScan vars cs st'
    | .error e => .error e

/-- Initial scanner state: `tokens`, `var_data` empty, `var_found` false. -/
def vInit : VScan := ⟨[], [], false⟩

/-- Rust `patch_variable_references(value, vars)` (src/main.rs 139-172):
scan the whole string and return the accumulated `var_data`. -/
def patch_variable_references (value : List Char) (vars : VarTable) :
    Except (List Char) (List Char) :=
  match pvrScan vars value vInit with
  | .ok st => .ok st.var_data
  | .error e => .error e

/-- Result of `patch_string`: `ok` is `Ok(var_data)`, `undef` is
`Err(var_ref)` (an undefined variable reference), and `exit` is a process
abort raised inside `execute_command_opt` (unparseable command line, spawn
failure, or non-zero exit of the substituted command - all of which call
`format_error`/`process::exit`). -/
inductive PSOut (α : Type) where
  | ok (a : α)
  | undef (name : List Char)
  | exit
deriving DecidableEq

/-- Scanner state of `patch_string`: local vars `tokens`, `var_data`,
`var_found`, `cmd_found` of the Rust loop. -/
structure SScan where
  tokens : List Char
  var_data : List Char
  var_found : Bool
  cmd_found : Bool
deriving DecidableEq

/-- One character step of the `patch_string` loop (src/main.rs 183-221).
`runCmd` abstracts `execute_command_opt` composed with trimming and
`shlex::split`: it receives the backtick-stripped captured text and returns
the command's captured stdout, or `none` for any of the abort paths (which
all end in `process::exit`).  NOTE (faithful to the source): the
command-closing branch does not reset `cmd_found` and does not clear
`tokens`. -/
def psStep (runCmd : List Char → Option (List Char)) (vars : VarTable)
    (st : SScan) (c : Char) : PSOut SScan :=
  if st.var_found then
    if c = rbrace then
      let var_ref := st.tokens.filter (fun x => x != lbrace)
      match vars var_ref with
      | some value => .ok { st with var_data := st.var_data ++ value, var_found := false }
      | none => .undef var_ref
    else if c = lbrace then
      .ok { st with var_found := false, var_data := st.var_data ++ [lbrace] }
    else
      .ok { st with tokens := st.tokens ++ [c] }
  else if st.cmd_found then
    if c = btick then
      let replace_cmd := st.tokens.filter (fun x => x != btick)
      match runCmd replace_cmd with
      | some out => .ok { st with var_data := st.var_data ++ out }
      | none => .exit
    else
      .ok { st with tokens := st.tokens ++ [c] }
  else if c = lbrace then
    .ok { st with var_found := true, tokens := [lbrace] }
  else if c = btick then
    .ok { st with cmd_found := true, tokens := [btick] }
  else
    .ok { st with var_data := st.var_data ++ [c] }

/-- The character loop of `patch_string`, folded over the input. -/
def psScan (runCmd : List Char → Option (List Char)) (vars : VarTable) :
    List Char → SScan → PSOut SScan
  | [], st => .ok st
  | c :: cs, st =>
    match psStep runCmd vars st c with
    | .ok st' => psScan runCmd vars cs st'
    | .undef e => .undef e
    | .exit => .exit

/-- Initial scanner state of `patch_string`. -/
def sInit : SScan := ⟨[], [], false, false⟩

/-- Rust `patch_string(value, vars)` (src/main.rs 174-224), with the
command-execution primitive passed explicitly. -/
def patch_string (value : List Char) (runCmd : List Char → Option (List Char))
    (vars : VarTable) : PSOut (List Char) :=
  match psScan runCmd vars value sInit with
  | .ok st => .ok st.var_data
  | .undef e => .undef e
  | .exit => .exit

/-- Insert (or overwrite) a binding in a variable table, as Rust
`HashMap::insert`. -/
def insertVar (k v : List Char) (t : VarTable) : VarTable :=
  fun q => if q = k then some v else t q

/-- The empty variable table. -/
def emptyVars : VarTable := fun _ => none

/-- Outcome of resolving the recipe's variable declarations.  `undefExit k r`
models `check_var_string`'s `format_error` + `process::exit` path (variable
`k` references undefined `r`); `exitCmd` models an abort inside
`execute_command_opt` during command substitution. -/
inductive ResolveOut where
  | ok (table : VarTable)
  | undefExit (key : List Char) (reference : List Char)
  | exitCmd

/-- Modelled from the spec: the iteration order of the recipe's `variables`
map in `CoyoteJson::preprocess` (src/main.rs 333-339).  The repository's
Cargo.toml is not under src/, and `serde_json`'s map iteration order is
decided by its `preserve_order` feature flag there; the spec states the
order is declaration (insertion) order, so the raw variables are modelled
as an ordered association list in declaration order.  The body is the
source's loop: `patch_string` the raw value against the table built so far,
insert on success, abort (via `check_var_string`) on an undefined
reference. -/
def preprocessVariables (runCmd : List Char → Option (List Char)) :
    List (List Char × List Char) → VarTable → ResolveOut
  | [], table => .ok table
  | (k, v) :: rest, table =>
    match patch_string v runCmd table with
    | .ok value => preprocessVariables runCmd rest (insertVar k value table)
    | .undef r => .undefExit k r
    | .exit => .exitCmd

/-! ### Lock store and decimal timestamps

The lock store (`CoyoteLock.last_modified : HashMap<String, String>`) maps
file paths to decimal strings of u64 timestamps.  `u64::to_string` and
`str::parse::<u64>` are modelled by `natRepr`/`parseU64` below; timestamps
are unbounded `Nat` (the u64 overflow bound is not modelled, and the `+`
sign accepted by Rust's parser never occurs in values the program writes).
-/

/-- The persisted path-to-timestamp map, path keys as Lean `String`s. -/
abbrev LockMap := String → Option String

/-- Insert (or overwrite) a binding, as `HashMap::insert` / `get_mut`
assignment. -/
def insertLock (p v : String) (lock : LockMap) : LockMap :=
  fun q => if q = p then some v else lock q

/-- Decimal digits of `n`, least significant first; empty for 0. -/
def natDigitsRev (n : Nat) : List Char :=
  if h : n = 0 then []
  else Nat.digitChar (n % 10) :: natDigitsRev (n / 10)
decreasing_by exact Nat.div_lt_self (Nat.pos_of_ne_zero h) (by norm_num)

/-- Decimal representation of a u64, as produced by Rust `u64::to_string`. -/
def natRepr (n : Nat) : List Char :=
  if n = 0 then ['0'] else (natDigitsRev n).reverse

/-- String form of `natRepr`. -/
def natReprS (n : Nat) : String := ⟨natRepr n⟩

/-- Accumulating decimal parser: digit characters only, `none` on any other
character. -/
def parseDigits : List Char → Nat → Option Nat
  | [], acc => some acc
  | c :: cs, acc =>
    if 48 ≤ c.toNat ∧ c.toNat ≤ 57 then parseDigits cs (acc * 10 + (c.toNat - 48))
    else none

/-- Rust `str::parse::<u64>` as used on stored lock values: empty input
fails, otherwise every character must be a decimal digit. -/
def parseU64 (s : List Char) : Option Nat :=
  if s = [] then none else parseDigits s 0

/-- String form of `parseU64`. -/
def parseU64S (s : String) : Option Nat := parseU64 s.data

/-- Outcome of `condition_met` (src/main.rs 257-316).  `met b lock` is a
normal return of `b` with the updated store; `malformed` is the
`format_error`/exit path for an empty condition, a wrong argument count, or
an unknown verb (the `MalformedConditionError` of the spec); `parseFail` is
the exit path when a stored value does not parse as u64; `fsError` is the
exit inside `get_file_modified_time` when the file's metadata is
unreadable; `panic` is a Rust index-out-of-bounds panic. -/
inductive CondResult where
  | met (b : Bool) (lock : LockMap)
  | malformed
  | parseFail
  | fsError
  | panic

/-- Rust `condition_met(cond, target, lock)` (src/main.rs 257-316), with the
filesystem abstracted as `mtime : path → current modification timestamp`
(`none` = metadata unreadable).  Note the source's arity check is
`cond.len() > 2`, so a one-element `["modified"]` condition reaches the
`cond[1]` index and panics. -/
def condition_met (mtime : String → Option Nat) (cond : List String)
    (_target : String) (lock : LockMap) : CondResult :=
  match cond with
  | [] => .malformed
  | verb :: rest =>
    if verb = "modified" then
      if (verb :: rest).length > 2 then .malformed
      else
        match rest with
        | [] => .panic
        | path :: _ =>
          match mtime path with
          | none => .fsError
          | some current =>
            match lock path with
            | none => .met true (insertLock path (natReprS current) lock)
            | some child =>
              match parseU64S child with
              | none => .parseFail
              | some prev =>
                .met (prev != current) (insertLock path (natReprS current) lock)
    else .malformed

/-! ### Target executor -/

/-- A recipe command (`struct Command`): program, arguments, optional
condition. -/
structure Command where
  command : String
  arguments : List String
  run_if : Option (List String)
deriving DecidableEq

/-- Captured outcome of a completed child process (`process::Output`). -/
structure RunOut where
  success : Bool
  stdout : String
  stderr : String
deriving DecidableEq

/-- Ghost trace events recording what `Executable::build` did: a call of the
staleness evaluator, a skip, a spawned-and-completed command, the failure
report printed for a non-zero exit. -/
inductive Event where
  | evaluated (cond : List String)
  | skipped (program : String)
  | ran (program : String)
  | failureReported (program : String) (stderr : String)
  | spawnFailed (program : String)
deriving DecidableEq

/-- True for the events produced by a staleness-evaluator consultation. -/
def Event.isConditionEvent : Event → Bool
  | .evaluated _ => true
  | .skipped _ => true
  | _ => false

/-- Result of one command's execution phase: continue the loop, or abort the
process (`format_error` → `process::exit`). -/
inductive ExecOut where
  | next (events : List Event)
  | abort (events : List Event)

/-- Events of an `ExecOut`. -/
def ExecOut.events : ExecOut → List Event
  | .next es => es
  | .abort es => es

/-- The execution phase of one command in `Executable::build`
(src/main.rs 411-467), with process spawning abstracted as
`runP : program → arguments → outcome` (`none` = spawn failure).  Spawn
failure aborts (`format_error` fatal).  A completed command with non-zero
exit status prints a failure report and then ALSO aborts, because
`format_error` calls `process::exit(-1)` unconditionally even when its
`fatal` argument is false (src/main.rs 74); the source's subsequent
red-cross finish code is unreachable. -/
def execCommand (runP : String → List String → Option RunOut) (c : Command) : ExecOut :=
  match runP c.command c.arguments with
  | none => .abort [.spawnFailed c.command]
  | some out =>
    if out.success then .next [.ran c.command]
    else .abort [.ran c.command, .failureReported c.command out.stderr]

/-- Result of running a list of commands: the final lock store and the ghost
trace, finishing normally or aborting the whole process. -/
inductive BuildResult where
  | finished (lock : LockMap) (trace : List Event)
  | aborted (lock : LockMap) (trace : List Event)

/-- Prepend events to a result's trace. -/
def BuildResult.consTrace (es : List Event) : BuildResult → BuildResult
  | .finished l t => .finished l (es ++ t)
  | .aborted l t => .aborted l (es ++ t)

/-- Final lock store of a result. -/
def BuildResult.lockOf : BuildResult → LockMap
  | .finished l _ => l
  | .aborted l _ => l

/-- Trace of a result. -/
def BuildResult.trace : BuildResult → List Event
  | .finished _ t => t
  | .aborted _ t => t

/-- The command loop of `Executable::build` (src/main.rs 395-471): for each
command, if `run_if` is present and the rebuild flag is off, consult
`condition_met` (mutating the lock store); a not-met condition skips the
command; any evaluator exit/panic aborts; otherwise run the command via
`execCommand`. -/
def buildCommands (runP : String → List String → Option RunOut)
    (mtime : String → Option Nat) (target : String) (rebuild : Bool) :
    List Command → LockMap → BuildResult
  | [], lock => .finished lock []
  | c :: cs, lock =>
    match c.run_if with
    | some cond =>
      if rebuild then
        match execCommand runP c with
        | .next es => .consTrace es (buildCommands runP mtime target rebuild cs lock)
        | .abort es => .aborted lock es
      else
        match condition_met mtime cond target lock with
        | .met true lock' =>
          match execCommand runP c with
          | .next es =>
            .consTrace (.evaluated cond :: es) (buildCommands runP mtime target rebuild cs lock')
          | .abort es => .aborted lock' (.evaluated cond :: es)
        | .met false lock' =>
          .consTrace [.evaluated cond, .skipped c.command]
            (buildCommands runP mtime target rebuild cs lock')
        | _ => .aborted lock [.evaluated cond]
    | none =>
      match execCommand runP c with
      | .next es => .consTrace es (buildCommands runP mtime target rebuild cs lock)
      | .abort es => .aborted lock es

/-- A command with its condition removed. -/
def stripRunIf (c : Command) : Command := { c with run_if := none }

/-! ### Helper lemmas -/

theorem pvrScan_append (vars : VarTable) (a b : List Char) (st : VScan) :
    pvrScan vars (a ++ b) st =
      match pvrScan vars a st with
      | .ok st' => pvrScan vars b st'
      | .error e => .error e := by
  induction a generalizing st with
  | nil => simp [pvrScan]
  | cons c cs ih =>
    simp only [List.cons_append, pvrScan]
    cases pvrStep vars st c with
    | ok st' => exact ih st'
    | error e => rfl

theorem psScan_append (runCmd : List Char → Option (List Char)) (vars : VarTable)
    (a b : List Char) (st : SScan) :
    psScan runCmd vars (a ++ b) st =
      match psScan runCmd vars a st with
      | .ok st' => psScan runCmd vars b st'
      | .undef e => .undef e
      | .exit => .exit := by
  induction a generalizing st with
  | nil => simp [psScan]
  | cons c cs ih =>
    simp only [List.cons_append, psScan]
    cases psStep runCmd vars st c with
    | ok st' => exact ih st'
    | undef e => rfl
    | exit => rfl

/-- While `var_found` is set, characters other than the two braces are
accumulated into `tokens` and nothing else changes. -/
theorem pvrScan_varmode (vars : VarTable) (name : List Char)
    (h1 : lbrace ∉ name) (h2 : rbrace ∉ name) :
    ∀ t d, pvrScan vars name ⟨t, d, true⟩ = .ok ⟨t ++ name, d, true⟩ := by
  induction name with
  | nil => intro t d; simp [pvrScan]
  | cons c cs ih =>
    intro t d
    have hc1 : c ≠ lbrace := fun h => h1 (h ▸ List.mem_cons_self c cs)
    have hc2 : c ≠ rbrace := fun h => h2 (h ▸ List.mem_cons_self c cs)
    have hcs1 : lbrace ∉ cs := fun h => h1 (List.mem_cons_of_mem c h)
    have hcs2 : rbrace ∉ cs := fun h => h2 (List.mem_cons_of_mem c h)
    have hstep : pvrStep vars ⟨t, d, true⟩ c = .ok ⟨t ++ [c], d, true⟩ := by
      simp [pvrStep, hc1, hc2]
    simp only [pvrScan, hstep]
    rw [ih hcs1 hcs2]
    simp

/-- In the normal state, characters other than an opening brace are copied
verbatim to the output. -/
theorem pvrScan_normal (vars : VarTable) (s : List Char) (h : lbrace ∉ s) :
    ∀ t d, pvrScan vars s ⟨t, d, false⟩ = .ok ⟨t, d ++ s, false⟩ := by
  induction s with
  | nil => intro t d; simp [pvrScan]
  | cons c cs ih =>
    intro t d
    have hc : c ≠ lbrace := fun hc => h (hc ▸ List.mem_cons_self c cs)
    have hcs : lbrace ∉ cs := fun hm => h (List.mem_cons_of_mem c hm)
    have hstep : pvrStep vars ⟨t, d, false⟩ c = .ok ⟨t, d ++ [c], false⟩ := by
      simp [pvrStep, hc]
    simp only [pvrScan, hstep]
    rw [ih hcs]
    simp

/-- While `cmd_found` is set (and `var_found` is not), characters other than
a backtick are accumulated into `tokens` and nothing else changes. -/
theorem psScan_cmdmode (runCmd : List Char → Option (List Char)) (vars : VarTable)
    (s : List Char) (h : btick ∉ s) :
    ∀ t d, psScan runCmd vars s ⟨t, d, false, true⟩ = .ok ⟨t ++ s, d, false, true⟩ := by
  induction s with
  | nil => intro t d; simp [psScan]
  | cons c cs ih =>
    intro t d
    have hc : c ≠ btick := fun hc => h (hc ▸ List.mem_cons_self c cs)
    have hcs : btick ∉ cs := fun hm => h (List.mem_cons_of_mem c hm)
    have hstep : psStep runCmd vars ⟨t, d, false, true⟩ c = .ok ⟨t ++ [c], d, false, true⟩ := by
      simp [psStep, hc]
    simp only [psScan, hstep]
    rw [ih hcs]
    simp

/-- Stripping the leading opening brace from the captured `tokens`
(the model of `tokens.replace`) recovers the bare name. -/
theorem filter_lbrace_cons (name : List Char) (h : lbrace ∉ name) :
    (lbrace :: name).filter (fun x => x != lbrace) = name := by
  rw [List.filter_cons_of_neg (by simp)]
  apply List.filter_eq_self.mpr
  intro a ha
  simp only [bne_iff_ne, ne_eq]
  exact fun hEq => h (hEq ▸ ha)

/-- Stripping backticks from the captured command text. -/
theorem filter_btick_cons (s : List Char) (h : btick ∉ s) :
    (btick :: s).filter (fun x => x != btick) = s := by
  rw [List.filter_cons_of_neg (by simp)]
  apply List.filter_eq_self.mpr
  intro a ha
  simp only [bne_iff_ne, ne_eq]
  exact fun hEq => h (hEq ▸ ha)

theorem natDigitsRev_ne_nil (n : Nat) (h : n ≠ 0) : natDigitsRev n ≠ [] := by
  rw [natDigitsRev]
  simp [h]

theorem natDigitsRev_zero : natDigitsRev 0 = [] := by
  rw [natDigitsRev]
  simp

theorem digitChar_toNat : ∀ d, d < 10 → (Nat.digitChar d).toNat = 48 + d := by decide

theorem parseDigits_append (a b : List Char) (acc : Nat) :
    parseDigits (a ++ b) acc =
      match parseDigits a acc with
      | some acc' => parseDigits b acc'
      | none => none := by
  induction a generalizing acc with
  | nil => simp [parseDigits]
  | cons c cs ih =>
    simp only [List.cons_append, parseDigits]
    by_cases h : 48 ≤ c.toNat ∧ c.toNat ≤ 57
    · rw [if_pos h, if_pos h]
      exact ih _
    · rw [if_neg h, if_neg h]

theorem parseDigits_natDigitsRev (n : Nat) (hn : n ≠ 0) : ∀ acc,
    parseDigits (natDigitsRev n).reverse acc =
      some (acc * 10 ^ (natDigitsRev n).length + n) := by
  induction n using Nat.strong_induction_on with
  | _ n ih =>
    intro acc
    rw [natDigitsRev, dif_neg hn]
    have hd : n % 10 < 10 := Nat.mod_lt _ (by norm_num)
    have hdigit : 48 ≤ (Nat.digitChar (n % 10)).toNat ∧ (Nat.digitChar (n % 10)).toNat ≤ 57 := by
      rw [digitChar_toNat _ hd]; omega
    have hchar : (Nat.digitChar (n % 10)).toNat - 48 = n % 10 := by
      rw [digitChar_toNat _ hd]; omega
    by_cases h10 : n / 10 = 0
    · rw [h10, natDigitsRev_zero, List.reverse_cons, List.reverse_nil, List.nil_append]
      simp only [parseDigits, if_pos hdigit, hchar, List.length_cons, List.length_nil,
        pow_one, Option.some.injEq]
      omega
    · have hlt : n / 10 < n := Nat.div_lt_self (Nat.pos_of_ne_zero hn) (by norm_num)
      rw [List.reverse_cons, parseDigits_append, ih (n / 10) hlt h10 acc]
      simp only [parseDigits, if_pos hdigit, hchar]
      simp only [List.length_cons, Option.some.injEq]
      rw [pow_succ]
      have hmod : n / 10 * 10 + n % 10 = n := by omega
      have heq : (acc * 10 ^ (natDigitsRev (n / 10)).length + n / 10) * 10 + n % 10
           = acc * (10 ^ (natDigitsRev (n / 10)).length * 10) + (n / 10 * 10 + n % 10) := by
        ring
      rw [heq, hmod]

/-- Round trip: parsing the decimal representation the program stores
recovers the timestamp. -/
theorem parseU64_natRepr (n : Nat) : parseU64 (natRepr n) = some n := by
  by_cases hn : n = 0
  · subst hn; rfl
  · rw [natRepr, if_neg hn, parseU64,
      if_neg (by simp [List.reverse_eq_nil_iff, natDigitsRev_ne_nil n hn]),
      parseDigits_natDigitsRev n hn 0]
    simp

/-- Round trip at the `String` level used by `condition_met`. -/
theorem parseU64S_natReprS (n : Nat) : parseU64S (natReprS n) = some n :=
  parseU64_natRepr n

theorem consTrace_lockOf (es : List Event) (r : BuildResult) :
    (BuildResult.consTrace es r).lockOf = r.lockOf := by
  cases r <;> rfl

theorem consTrace_trace (es : List Event) (r : BuildResult) :
    (BuildResult.consTrace es r).trace = es ++ r.trace := by
  cases r <;> rfl

/-- The execution phase emits only run/report/spawn events, never a
condition-evaluation event. -/
theorem execCommand_events_not_cond (runP : String → List String → Option RunOut)
    (c : Command) :
    ((execCommand runP c).events.all fun e => !e.isConditionEvent) = true := by
  unfold execCommand
  cases runP c.command c.arguments with
  | none => rfl
  | some out =>
    by_cases h : out.success = true
    · simp [h, ExecOut.events, Event.isConditionEvent]
    · simp [h, ExecOut.events, Event.isConditionEvent]

theorem btick_ne_lbrace : btick ≠ lbrace := by decide

/-! ### Claims -/

/-- Claim C1.  The claim states that a command completing with non-zero exit
status is non-fatal: the failure is reported and the remaining commands
still run.  The code contradicts this: `format_error` calls
`process::exit(-1)` unconditionally (src/main.rs 74), even when called with
`fatal = false`, so the whole run aborts right after the report.  This
theorem evaluates the embedded executor at the failing input: a target of
two commands whose first exits non-zero.  The result is an aborted run
whose trace contains the failure report for the first command and no `ran`
event for the second. -/
theorem claim1_nonzero_exit_aborts_run :
    buildCommands
        (fun p _ => if p = "c1" then some ⟨false, "", "boom"⟩ else some ⟨true, "", ""⟩)
        (fun _ => none) "t" false
        [⟨"c1", [], none⟩, ⟨"c2", [], none⟩] (fun _ => none)
      = .aborted (fun _ => none) [.ran "c1", .failureReported "c1" "boom"] := rfl

/-- Claim C2.  The claim states that a closing backtick returns the scanner
to the Normal state, so text after it is scanned normally.  The code never
resets `cmd_found` (src/main.rs 201-211), so the scanner stays in the
command state: here the text `x` after the closing backtick is accumulated
into the stale `tokens` buffer and dropped at end of input (first
conjunct, output is the command's stdout only, not stdout followed by `x`),
and if another backtick follows, the stale buffer is re-executed as a new
command line together with the trailing text (second conjunct). -/
theorem claim2_closing_backtick_stays_in_command_mode (vars : VarTable) :
    patch_string [btick, 't', btick, 'x']
        (fun s => if s = ['t'] then some ['O'] else some ['?']) vars = .ok ['O']
    ∧ patch_string [btick, 't', btick, 'x', btick]
        (fun s => if s = ['t'] then some ['O'] else some ['?']) vars = .ok ['O', '?'] :=
  ⟨rfl, rfl⟩

/-- Claim C3.  A second opening brace read while inside a variable reference
discards the partial capture, emits one literal opening brace, and returns
the scanner to Normal, so every following character free of further opening
braces (any closing brace included) is copied literally: for every variable
table, substituting a string of the form open-open-s yields open-s. -/
theorem claim3_double_lbrace_escape (vars : VarTable) (s : List Char) (h : lbrace ∉ s) :
    patch_variable_references (lbrace :: lbrace :: s) vars = .ok (lbrace :: s) := by
  unfold patch_variable_references
  have h2 : pvrScan vars (lbrace :: lbrace :: s) vInit
      = pvrScan vars s ⟨[lbrace], [lbrace], false⟩ := rfl
  rw [h2, pvrScan_normal vars s h]
  simp

/-- Witness for C3 at the spec's own example: the input open-open-abc-close
over the empty table yields open-abc-close. -/
theorem claim3_witness :
    lbrace ∉ ['a', 'b', 'c', rbrace]
    ∧ patch_variable_references (lbrace :: lbrace :: ['a', 'b', 'c', rbrace]) (fun _ => none)
        = .ok (lbrace :: ['a', 'b', 'c', rbrace]) :=
  ⟨by decide, claim3_double_lbrace_escape (fun _ => none) ['a', 'b', 'c', rbrace] (by decide)⟩

/-- Claim C4.  Evaluating a condition of verb `modified` with path `p`:
if `p` is absent from the lock store, the current timestamp is inserted and
the result is met; if `p` is present with a stored value parsing to `prev`,
the stored value is unconditionally overwritten with the current timestamp
and the result is met exactly when `prev` and the current timestamp are
boolean-unequal, which coincides with strict inequality of the numbers. -/
theorem claim4_modified_condition_semantics (mtime : String → Option Nat) (lock : LockMap)
    (p t : String) (cur : Nat) (hm : mtime p = some cur) :
    (lock p = none →
      condition_met mtime ["modified", p] t lock
        = .met true (insertLock p (natReprS cur) lock))
    ∧ (∀ s prev, lock p = some s → parseU64S s = some prev →
      condition_met mtime ["modified", p] t lock
        = .met (prev != cur) (insertLock p (natReprS cur) lock))
    ∧ (∀ prev : Nat, ((prev != cur) = true ↔ prev ≠ cur)) := by
  refine ⟨?_, ?_, fun prev => bne_iff_ne⟩
  · intro habs
    simp [condition_met, hm, habs]
  · intro s prev hs hp
    simp [condition_met, hm, hs, hp]

/-- Witness for C4: a file with timestamp 5 and an empty store. -/
theorem claim4_witness :
    ((fun (_ : String) => some 5) "f" = some 5)
    ∧ condition_met (fun _ => some 5) ["modified", "f"] "t" (fun _ => none)
        = .met true (insertLock "f" (natReprS 5) (fun _ => none)) :=
  ⟨rfl, (claim4_modified_condition_semantics (fun _ => some 5) (fun _ => none) "f" "t" 5 rfl).1
    rfl⟩

/-- Claim C5.  The claim states the evaluator fails with a malformed
condition error exactly on an empty condition, an unknown verb, or a wrong
argument count for `modified` - in particular on the one-element condition
`modified` with its path missing.  The code agrees on the empty condition,
the unknown verb, and more than one argument (first three conjuncts), but
its arity check is `cond.len() > 2` (src/main.rs 269), so the one-element
condition slips past it and `cond[1]` panics with an index out of bounds
instead of reaching the malformed-condition error path (last conjunct). -/
theorem claim5_modified_missing_arg_panics (mtime : String → Option Nat)
    (t : String) (lock : LockMap) :
    condition_met mtime [] t lock = .malformed
    ∧ condition_met mtime ["frobnicate", "x"] t lock = .malformed
    ∧ condition_met mtime ["modified", "a", "b"] t lock = .malformed
    ∧ condition_met mtime ["modified"] t lock = .panic :=
  ⟨rfl, rfl, rfl, rfl⟩

/-- Claim C6.  Variable declarations are resolved in declaration order, each
resolved value being inserted into the table before the next entry is
processed, so a raw value may reference exactly the earlier-declared
variables: the spec's example resolves a to 1 and b to 12; a self-reference
and a reference to a later-declared variable both abort resolution with an
undefined-variable failure naming the offending key and the missing
reference. -/
theorem claim6_declaration_order_resolution (runCmd : List Char → Option (List Char)) :
    (∃ T, preprocessVariables runCmd
        [(['a'], ['1']), (['b'], [lbrace, 'a', rbrace, '2'])] emptyVars = .ok T
      ∧ T ['a'] = some ['1'] ∧ T ['b'] = some ['1', '2'])
    ∧ preprocessVariables runCmd [(['a'], [lbrace, 'a', rbrace])] emptyVars
        = .undefExit ['a'] ['a']
    ∧ preprocessVariables runCmd
        [(['a'], [lbrace, 'b', rbrace]), (['b'], ['2'])] emptyVars
        = .undefExit ['a'] ['b'] :=
  ⟨⟨_, rfl, rfl, rfl⟩, rfl, rfl⟩

/-- Claim C7.  With the rebuild (override) flag set, the command walk never
consults the staleness evaluator and never skips a command (no
condition-evaluation events in the trace), leaves the lock store completely
unchanged, and behaves exactly as if every command had no condition at
all - every command proceeds to the execution phase as if its condition
were met. -/
theorem claim7_override_skips_evaluator_frame (runP : String → List String → Option RunOut)
    (mtime : String → Option Nat) (target : String) (cmds : List Command) (lock : LockMap) :
    ((buildCommands runP mtime target true cmds lock).trace.all
        fun e => !e.isConditionEvent) = true
    ∧ (buildCommands runP mtime target true cmds lock).lockOf = lock
    ∧ buildCommands runP mtime target true cmds lock
        = buildCommands runP mtime target false (cmds.map stripRunIf) lock := by
  induction cmds generalizing lock with
  | nil => exact ⟨rfl, rfl, rfl⟩
  | cons c cs ih =>
    obtain ⟨ih1, ih2, ih3⟩ := ih lock
    have hstrip :
        execCommand runP { command := c.command, arguments := c.arguments, run_if := none }
          = execCommand runP c := rfl
    have hev := execCommand_events_not_cond runP c
    cases hc : c.run_if with
    | some cond =>
      cases hex : execCommand runP c with
      | next es =>
        rw [hex] at hev
        simp only [ExecOut.events] at hev
        refine ⟨?_, ?_, ?_⟩
        · simp [buildCommands, hc, hex, consTrace_trace, List.all_append, hev, ih1]
        · simp [buildCommands, hc, hex, consTrace_lockOf, ih2]
        · simp [buildCommands, hc, hex, stripRunIf, hstrip, ih3]
      | abort es =>
        refine ⟨?_, ?_, ?_⟩
        · rw [hex] at hev
          simp only [ExecOut.events] at hev
          simp [buildCommands, hc, hex, BuildResult.trace, hev]
        · simp [buildCommands, hc, hex, BuildResult.lockOf]
        · simp [buildCommands, hc, hex, stripRunIf, hstrip]
    | none =>
      cases hex : execCommand runP c with
      | next es =>
        rw [hex] at hev
        simp only [ExecOut.events] at hev
        refine ⟨?_, ?_, ?_⟩
        · simp [buildCommands, hc, hex, consTrace_trace, List.all_append, hev, ih1]
        · simp [buildCommands, hc, hex, consTrace_lockOf, ih2]
        · simp [buildCommands, hc, hex, stripRunIf, hstrip, ih3]
      | abort es =>
        refine ⟨?_, ?_, ?_⟩
        · rw [hex] at hev
          simp only [ExecOut.events] at hev
          simp [buildCommands, hc, hex, BuildResult.trace, hev]
        · simp [buildCommands, hc, hex, BuildResult.lockOf]
        · simp [buildCommands, hc, hex, stripRunIf, hstrip]

/-- Claim C8.  Evaluating the same `modified` condition twice in succession
with no file change in between, starting from a store that has not seen the
path: the first call returns met and stores the current timestamp, the
second call returns not-met, and after each call the stored value for the
path is the decimal representation of the file's current timestamp. -/
theorem claim8_unchanged_file_idempotence (mtime : String → Option Nat) (lock : LockMap)
    (p t : String) (cur : Nat) (hm : mtime p = some cur) (habs : lock p = none) :
    condition_met mtime ["modified", p] t lock
      = .met true (insertLock p (natReprS cur) lock)
    ∧ condition_met mtime ["modified", p] t (insertLock p (natReprS cur) lock)
      = .met false (insertLock p (natReprS cur) (insertLock p (natReprS cur) lock))
    ∧ insertLock p (natReprS cur) lock p = some (natReprS cur)
    ∧ insertLock p (natReprS cur) (insertLock p (natReprS cur) lock) p
        = some (natReprS cur) := by
  refine ⟨?_, ?_, ?_, ?_⟩
  · simp [condition_met, hm, habs]
  · have hl : insertLock p (natReprS cur) lock p = some (natReprS cur) := by simp [insertLock]
    simp [condition_met, hm, hl, parseU64S_natReprS, bne_self_eq_false]
  · simp [insertLock]
  · simp [insertLock]

/-- Witness for C8: path f, timestamp 5, initially empty store. -/
theorem claim8_witness :
    ((fun (_ : String) => (none : Option String)) "f" = none)
    ∧ condition_met (fun _ => some 5) ["modified", "f"] "t"
        (insertLock "f" (natReprS 5) (fun _ => none))
      = .met false (insertLock "f" (natReprS 5) (insertLock "f" (natReprS 5) (fun _ => none))) :=
  ⟨rfl, (claim8_unchanged_file_idempotence (fun _ => some 5) (fun _ => none) "f" "t" 5 rfl
    rfl).2.1⟩

/-- Claim C9.  A closed variable reference whose name is absent from the
table makes substitution fail with an undefined-variable error carrying
exactly the missing name: after any prefix that scans cleanly back to the
Normal state, an opening brace, a brace-free name and a closing brace
produce the error naming that name whenever the table has no entry for
it. -/
theorem claim9_undefined_variable_error (vars : VarTable) (pre name : List Char) (st : VScan)
    (hpre : pvrScan vars pre vInit = .ok st) (hnf : st.var_found = false)
    (h1 : lbrace ∉ name) (h2 : rbrace ∉ name) (habs : vars name = none) :
    patch_variable_references (pre ++ lbrace :: (name ++ [rbrace])) vars = .error name := by
  have hopen : pvrStep vars st lbrace = .ok { st with var_found := true, tokens := [lbrace] } :=
    by simp [pvrStep, hnf]
  have hscan : pvrScan vars (pre ++ lbrace :: (name ++ [rbrace])) vInit = .error name := by
    rw [pvrScan_append, hpre]
    show pvrScan vars (lbrace :: (name ++ [rbrace])) st = .error name
    simp only [pvrScan, hopen]
    rw [pvrScan_append, pvrScan_varmode vars name h1 h2]
    show pvrScan vars [rbrace] ⟨[lbrace] ++ name, st.var_data, true⟩ = .error name
    simp [pvrScan, pvrStep, List.singleton_append, filter_lbrace_cons name h1, habs]
  unfold patch_variable_references
  rw [hscan]

/-- Witness for C9 at the spec's example: substituting a braced x over the
empty table fails naming x. -/
theorem claim9_witness :
    ((fun (_ : List Char) => (none : Option (List Char))) ['x'] = none)
    ∧ patch_variable_references ([] ++ lbrace :: (['x'] ++ [rbrace])) (fun _ => none)
        = .error ['x'] :=
  ⟨rfl, claim9_undefined_variable_error (fun _ => none) [] ['x'] vInit rfl rfl (by decide)
    (by decide) rfl⟩

/-- Claim C10.  When the input ends inside an unterminated variable
reference, or (with command execution enabled) inside an unterminated
backtick command reference, substitution succeeds and the partial capture
is silently dropped: the output is exactly what had been emitted before the
opening delimiter; in particular an open brace followed by abc yields the
empty output over every table. -/
theorem claim10_unterminated_refs_dropped (vars : VarTable)
    (runCmd : List Char → Option (List Char)) (pre1 nm pre2 rest : List Char)
    (st1 : VScan) (st2 : SScan)
    (hpre1 : pvrScan vars pre1 vInit = .ok st1) (hnf1 : st1.var_found = false)
    (h1a : lbrace ∉ nm) (h1b : rbrace ∉ nm)
    (hpre2 : psScan runCmd vars pre2 sInit = .ok st2)
    (hnf2 : st2.var_found = false) (hnc2 : st2.cmd_found = false)
    (h2a : btick ∉ rest) :
    patch_variable_references (pre1 ++ lbrace :: nm) vars = .ok st1.var_data
    ∧ patch_string (pre2 ++ btick :: rest) runCmd vars = .ok st2.var_data
    ∧ (∀ vs : VarTable, patch_variable_references [lbrace, 'a', 'b', 'c'] vs = .ok []) := by
  refine ⟨?_, ?_, fun vs => rfl⟩
  · have hopen : pvrStep vars st1 lbrace
        = .ok { st1 with var_found := true, tokens := [lbrace] } := by
      simp [pvrStep, hnf1]
    have hscan : pvrScan vars (pre1 ++ lbrace :: nm) vInit
        = .ok ⟨[lbrace] ++ nm, st1.var_data, true⟩ := by
      rw [pvrScan_append, hpre1]
      show pvrScan vars (lbrace :: nm) st1 = .ok ⟨[lbrace] ++ nm, st1.var_data, true⟩
      simp only [pvrScan, hopen]
      exact pvrScan_varmode vars nm h1a h1b [lbrace] st1.var_data
    unfold patch_variable_references
    rw [hscan]
  · have hopen : psStep runCmd vars st2 btick
        = .ok { st2 with cmd_found := true, tokens := [btick] } := by
      simp [psStep, hnf2, hnc2, btick_ne_lbrace]
    have hscan : psScan runCmd vars (pre2 ++ btick :: rest) sInit
        = .ok ⟨[btick] ++ rest, st2.var_data, st2.var_found, true⟩ := by
      rw [psScan_append, hpre2]
      show psScan runCmd vars (btick :: rest) st2
          = .ok ⟨[btick] ++ rest, st2.var_data, st2.var_found, true⟩
      simp only [psScan, hopen]
      rw [hnf2]
      exact psScan_cmdmode runCmd vars rest h2a [btick] st2.var_data
    unfold patch_string
    rw [hscan]

/-- Witness for C10: an unterminated variable reference and an unterminated
command reference, each over the empty table and a never-called run
primitive. -/
theorem claim10_witness :
    (Coyote.lbrace ∉ (['a', 'b'] : List Char))
    ∧ patch_variable_references ([] ++ lbrace :: ['a', 'b']) (fun _ => none)
        = .ok vInit.var_data
    ∧ patch_string ([] ++ btick :: ['c']) (fun _ => none) (fun _ => none)
        = .ok sInit.var_data :=
  ⟨by decide,
    (claim10_unterminated_refs_dropped (fun _ => none) (fun _ => none) [] ['a', 'b'] [] ['c']
      vInit sInit rfl rfl (by decide) (by decide) rfl rfl rfl (by decide)).1,
    (claim10_unterminated_refs_dropped (fun _ => none) (fun _ => none) [] ['a', 'b'] [] ['c']
      vInit sInit rfl rfl (by decide) (by decide) rfl rfl rfl (by decide)).2.1⟩

end Coyote

